import Mathlib

/-!
Verification of the TTF futures contract-resolution engine
(DataStore.query and DataStore.query_spread in ttf_futures.py).

Shallow embedding conventions:
  * a pandas DataFrame of calendar rows becomes a List Row, in table order;
  * date strings compared via pd.to_datetime become a Date structure whose
    Date.toNat encoding is order-isomorphic to chronological order;
  * the contract_month column (a YYYY-MM string, compared lexicographically)
    becomes a Nat encoding with the same order;
  * the month_name column (NaN for rows whose code failed to parse) becomes
    Option Month;
  * DataFrame.sort_values becomes the stable insertion sort sortByKey;
  * the slice .iloc[k-1:k] becomes ilocSlice (with the Python semantics that
    .iloc[-1:0], arising for k = 0, is empty);
  * regular-expression prefix matching with re.match becomes character-list
    parsing functions with the same acceptance behaviour (trailing characters
    after the matched prefix are allowed, as re.match does not anchor the end);
  * result DataFrames carrying .attrs metadata become structures with a rows
    field and an optional metadata field; a bare pd.DataFrame() is the value
    with empty rows and no metadata.
-/

namespace TTF

/-- Calendar dates, compared chronologically through the toNat encoding. -/
structure Date where
  year : Nat
  month : Nat
  day : Nat
deriving DecidableEq

/-- Order-embedding of a date, matching both chronological order and the
lexicographic order of the YYYY-MM-DD strings stored in the table. -/
def Date.toNat (d : Date) : Nat := d.year * 10000 + d.month * 100 + d.day

/-- Calendar months, the values of the month_map dictionaries in the source. -/
inductive Month
  | january | february | march | april | may | june
  | july | august | september | october | november | december
deriving DecidableEq

/-- Position of a month in month_map.values() order (Jan = 0 .. Dec = 11),
as computed by month_order.index in query_spread. -/
def monthIdx : Month → Nat
  | .january => 0 | .february => 1 | .march => 2 | .april => 3
  | .may => 4 | .june => 5 | .july => 6 | .august => 7
  | .september => 8 | .october => 9 | .november => 10 | .december => 11

/-- Full month name, the values of month_map in the source. -/
def monthName : Month → List Char
  | .january => "January".toList
  | .february => "February".toList
  | .march => "March".toList
  | .april => "April".toList
  | .may => "May".toList
  | .june => "June".toList
  | .july => "July".toList
  | .august => "August".toList
  | .september => "September".toList
  | .october => "October".toList
  | .november => "November".toList
  | .december => "December".toList

/-- Three-letter month abbreviation, the keys of month_map in the source. -/
def abbrChars : Month → List Char
  | .january => "JAN".toList
  | .february => "FEB".toList
  | .march => "MAR".toList
  | .april => "APR".toList
  | .may => "MAY".toList
  | .june => "JUN".toList
  | .july => "JUL".toList
  | .august => "AUG".toList
  | .september => "SEP".toList
  | .october => "OCT".toList
  | .november => "NOV".toList
  | .december => "DEC".toList

/-- Lookup in the month_map dictionary: abbreviation to month, failing on
unrecognized abbreviations. -/
def abbrToMonth (s : List Char) : Option Month :=
  if s = "JAN".toList then some .january
  else if s = "FEB".toList then some .february
  else if s = "MAR".toList then some .march
  else if s = "APR".toList then some .april
  else if s = "MAY".toList then some .may
  else if s = "JUN".toList then some .june
  else if s = "JUL".toList then some .july
  else if s = "AUG".toList then some .august
  else if s = "SEP".toList then some .september
  else if s = "OCT".toList then some .october
  else if s = "NOV".toList then some .november
  else if s = "DEC".toList then some .december
  else none

/-- One row of the cleaned calendar table (see DataStore.clean_data):
code is the TFM_Code after removal of the source-system marker, month_name is
None exactly when the delivery-month parse of the code failed, contract_month
encodes the YYYY-MM column in an order-preserving way, and contract_year is
the year of contract_month. -/
structure Row where
  code : List Char
  month_name : Option Month
  contract_month : Nat
  expiry_date : Date
  contract_year : Nat
deriving DecidableEq

/-- The point_in_time argument of DataStore.query: either a single date or a
pair (start_date, end_date). -/
inductive PIT
  | single (t : Date)
  | range (s e : Date)
deriving DecidableEq

/-- The reference_date local of DataStore.query: the single date, or the start
date of a range. -/
def refDate : Option PIT → Option Date
  | none => none
  | some (.single t) => some t
  | some (.range s _) => some s

/-- The point-in-time filter applied to result_df at the top of
DataStore.query (lines 89-100): keep rows with expiry_date at or after the
reference date, or inside the closed range. -/
def pitFilter (df : List Row) : Option PIT → List Row
  | none => df
  | some (.single t) =>
      df.filter (fun r => decide (t.toNat ≤ r.expiry_date.toNat))
  | some (.range s e) =>
      df.filter (fun r =>
        decide (s.toNat ≤ r.expiry_date.toNat) && decide (r.expiry_date.toNat ≤ e.toNat))

/-- Stable insertion of an element into a list ordered by a Nat key: the new
element goes in front of the first element of greater-or-equal key. -/
def insertLe {α : Type} (key : α → Nat) (a : α) : List α → List α
  | [] => [a]
  | b :: l => if key a ≤ key b then a :: b :: l else b :: insertLe key a l

/-- Stable sort by a Nat key, modelling DataFrame.sort_values (the spec fixes
the stable tie-break policy; ties keep original table order). -/
def sortByKey {α : Type} (key : α → Nat) : List α → List α
  | [] => []
  | a :: l => insertLe key a (sortByKey key l)

/-- The slice df.iloc[k-1:k] used to take the k-th row (1-indexed); for k = 0
the Python slice is iloc[-1:0], which is empty. -/
def ilocSlice {α : Type} (k : Nat) (l : List α) : List α :=
  if k = 0 then [] else (l.drop (k - 1)).take 1

/-- Decimal digit characters, for rendering a sequence number into the code
string built with an f-string in query_spread. -/
def digitChar : Nat → Char
  | 0 => '0' | 1 => '1' | 2 => '2' | 3 => '3' | 4 => '4'
  | 5 => '5' | 6 => '6' | 7 => '7' | 8 => '8' | 9 => '9'
  | _ => '*'

/-- Fuel-driven decimal rendering of a natural number (structural recursion so
terms reduce inside the kernel). -/
def natDigitsF : Nat → Nat → List Char
  | 0, _ => []
  | fuel + 1, n =>
      if n < 10 then [digitChar n]
      else natDigitsF fuel (n / 10) ++ [digitChar (n % 10)]

/-- Canonical decimal rendering of a natural number, as Python str() yields. -/
def natDigits (n : Nat) : List Char := natDigitsF (n + 1) n

/-- Value of a decimal digit string, as Python int() computes on the captured
group of a regular expression. -/
def digitsToNat (l : List Char) : Nat :=
  l.foldl (fun a c => a * 10 + (c.toNat - 48)) 0

/-- The literal TFM prefix of all symbolic codes. -/
def tfm : List Char := ['T', 'F', 'M']

/-- Parser for generic codes, embedding re.match of TFM(\d+): the literal TFM,
then a nonempty maximal digit run; trailing characters are allowed because
re.match does not anchor the end of the string. -/
def parseGen : List Char → Option Nat
  | 'T' :: 'F' :: 'M' :: rest =>
      let digits := rest.takeWhile Char.isDigit
      if digits.isEmpty then none else some (digitsToNat digits)
  | _ => none

/-- Parser for monthly-generic codes, embedding re.match of
TFM([A-Za-z]+)(\d+): the literal TFM, then a nonempty maximal letter run, then
a nonempty maximal digit run (the character classes are disjoint, so greedy
matching with backtracking reduces to exactly this); trailing characters are
allowed. The letter group is upper-cased as the source does before the
month_map lookup. -/
def parseMG : List Char → Option (List Char × Nat)
  | 'T' :: 'F' :: 'M' :: rest =>
      let letters := rest.takeWhile Char.isAlpha
      let afterLetters := rest.dropWhile Char.isAlpha
      let digits := afterLetters.takeWhile Char.isDigit
      if letters.isEmpty || digits.isEmpty then none
      else some (letters.map Char.toUpper, digitsToNat digits)
  | _ => none

/-- Parser for spread codes, embedding re.match of
TFM([A-Z]{3})([A-Z]{3})(\d+): the literal TFM, six upper-case letters forming
the two legs, then a nonempty digit run; trailing characters are allowed. -/
def parseSpread : List Char → Option (List Char × List Char × Nat)
  | 'T' :: 'F' :: 'M' :: a :: b :: c :: d :: e :: f :: rest =>
      if a.isUpper && b.isUpper && c.isUpper && d.isUpper && e.isUpper && f.isUpper then
        let digits := rest.takeWhile Char.isDigit
        if digits.isEmpty then none
        else some ([a, b, c], [d, e, f], digitsToNat digits)
      else none
  | _ => none

/-- The source-system marker ENDEX::F: removed from specific codes. -/
def endexMarker : List Char := "ENDEX::F:".toList

/-- Test whether pat occurs as a contiguous sublist. -/
def isPrefixChars : List Char → List Char → Bool
  | [], _ => true
  | _ :: _, [] => false
  | a :: as, b :: bs => a == b && isPrefixChars as bs

/-- Occurrence test for a pattern anywhere in the string. -/
def containsSub (pat : List Char) : List Char → Bool
  | [] => pat.isEmpty
  | c :: rest => isPrefixChars pat (c :: rest) || containsSub pat rest

/-- Python str.replace(pat, empty, 1): remove the first occurrence of pat. -/
def removeFirst (pat : List Char) : List Char → List Char
  | [] => []
  | c :: rest =>
      if isPrefixChars pat (c :: rest) then (c :: rest).drop pat.length
      else c :: removeFirst pat rest

/-- The SPECIFIC branch of DataStore.query (lines 103-106): strip the first
occurrence of the source-system marker from the input and keep the rows of the
point-in-time-filtered table whose code equals it. -/
def query_specific (df : List Row) (security : List Char) (pit : Option PIT) : List Row :=
  (pitFilter df pit).filter (fun r => decide (r.code = removeFirst endexMarker security))

/-- The GENERIC branch of DataStore.query (lines 108-114): parse the sequence
number, sort the point-in-time-filtered table by contract_month, and slice out
the sequence-th row; an unparsed code yields the empty frame. -/
def query_generic (df : List Row) (security : List Char) (pit : Option PIT) : List Row :=
  match parseGen security with
  | none => []
  | some seq => ilocSlice seq (sortByKey (fun r => r.contract_month) (pitFilter df pit))

/-- Metadata attached to a monthly-generic result via DataFrame.attrs: the
full dictionary built when a reference date is present (lines 163-197), or the
basic month_info dictionary built without one (line 208). -/
inductive MGMeta
  | pit (expired_contracts : List (Nat × Date)) (next_available : Option (Nat × Date))
        (month_info : Month)
  | basic (month_info : Month)
deriving DecidableEq

/-- Result of the MONTHLY_GENERIC branch: the sliced rows plus the optional
attrs metadata; a bare pd.DataFrame() is empty rows without metadata. -/
structure MGResult where
  rows : List Row
  meta : Option MGMeta
deriving DecidableEq

/-- The bare pd.DataFrame() returned on parse failure or insufficient data. -/
def MGResult.empty : MGResult := ⟨[], none⟩

/-- The month-filtered frame monthly_df of the MONTHLY_GENERIC branch
(line 145): rows of the point-in-time-filtered table whose month_name matches
(rows with a failed delivery-month parse have no month_name and never match). -/
def monthRows (df : List Row) (pit : Option PIT) (m : Month) : List Row :=
  (pitFilter df pit).filter (fun r => decide (r.month_name = some m))

/-- The valid_contracts frame (lines 154-156): month rows whose expiry_date is
strictly after the reference date, sorted by contract_year. -/
def validSorted (df : List Row) (pit : Option PIT) (m : Month) (t : Date) : List Row :=
  sortByKey (fun r => r.contract_year)
    ((monthRows df pit m).filter (fun r => decide (t.toNat < r.expiry_date.toNat)))

/-- The expired_contracts metadata entry (lines 170-181): look for a month row
of the reference year in monthly_df; if its first occurrence expired strictly
before the reference date, record the year and expiry date. -/
def expiredNotice (df : List Row) (pit : Option PIT) (m : Month) (t : Date) :
    List (Nat × Date) :=
  match (monthRows df pit m).filter (fun r => decide (r.contract_year = t.year)) with
  | [] => []
  | r :: _ => if r.expiry_date.toNat < t.toNat then [(t.year, r.expiry_date)] else []

/-- The next_available metadata entry (lines 188-192): year and expiry of the
selected row, when one was selected. -/
def nextAvail : List Row → Option (Nat × Date)
  | [] => none
  | r :: _ => some (r.contract_year, r.expiry_date)

/-- The MONTHLY_GENERIC branch of DataStore.query (lines 116-212): parse the
code, look up the month, and with a reference date slice the sequence-th
non-expired contract (by year) attaching the full metadata, or without one
slice the sequence-th contract by year with basic metadata; parse failure,
unknown abbreviation, or insufficient rows yield the bare empty frame. -/
def query_monthly_generic (df : List Row) (security : List Char) (pit : Option PIT) :
    MGResult :=
  match parseMG security with
  | none => MGResult.empty
  | some (abbr, seq) =>
    match abbrToMonth abbr with
    | none => MGResult.empty
    | some m =>
      match refDate pit with
      | some t =>
          if seq ≤ (validSorted df pit m t).length then
            ⟨ilocSlice seq (validSorted df pit m t),
             some (MGMeta.pit (expiredNotice df pit m t)
               (nextAvail (ilocSlice seq (validSorted df pit m t))) m)⟩
          else MGResult.empty
      | none =>
          if seq ≤ (sortByKey (fun r => r.contract_year) (monthRows df pit m)).length then
            ⟨ilocSlice seq (sortByKey (fun r => r.contract_year) (monthRows df pit m)),
             some (MGMeta.basic m)⟩
          else MGResult.empty

/-- One row of the spread result DataFrame built in query_spread
(lines 305-312). -/
structure SpreadRow where
  spread_code : List Char
  contract1_code : List Char
  contract1_expiry : Date
  contract2_code : List Char
  contract2_expiry : Date
  spread_type : List Char
deriving DecidableEq

/-- The attrs metadata attached to a spread result (lines 315-327). -/
structure SpreadMeta where
  spread_type : List Char
  leg1_code : List Char
  leg1_month : List Char
  leg1_year : Nat
  leg2_code : List Char
  leg2_month : List Char
  leg2_year : Nat
deriving DecidableEq

/-- Result of DataStore.query_spread: rows plus optional attrs metadata; the
bare pd.DataFrame() is empty rows without metadata. -/
structure SpreadResult where
  rows : List SpreadRow
  meta : Option SpreadMeta
deriving DecidableEq

/-- The bare pd.DataFrame() returned on any spread failure path. -/
def SpreadResult.empty : SpreadResult := ⟨[], none⟩

/-- DataStore.query_spread (lines 221-332): parse the spread code; check both
abbreviations against month_map; resolve leg 1 as the monthly generic built
from the first abbreviation and the sequence number, with the point in time;
on success compute the second leg year by the calendar-order rollover rule and
take the first row of the full (unfiltered) table matching the second month
name and that year; any failure yields the bare empty frame. -/
def query_spread (df : List Row) (spread_code : List Char) (pit : Option PIT) :
    SpreadResult :=
  match parseSpread spread_code with
  | none => SpreadResult.empty
  | some (a1, a2, seq) =>
    match abbrToMonth a1, abbrToMonth a2 with
    | some m1, some m2 =>
      let contract1 := query_monthly_generic df (tfm ++ a1 ++ natDigits seq) pit
      match contract1.rows with
      | [] => SpreadResult.empty
      | r1 :: _ =>
        let year1 := r1.contract_year
        let year2 := if monthIdx m2 ≤ monthIdx m1 then year1 + 1 else year1
        match (df.filter (fun r => decide (r.month_name = some m2))).filter
                (fun r => decide (r.contract_year = year2)) with
        | [] => SpreadResult.empty
        | r2 :: _ =>
            ⟨[⟨spread_code, r1.code, r1.expiry_date, r2.code, r2.expiry_date,
               a1 ++ '-' :: a2⟩],
             some ⟨a1 ++ '-' :: a2, r1.code, monthName m1, year1,
                   r2.code, monthName m2, year2⟩⟩
    | _, _ => SpreadResult.empty

/-- The security_type argument of DataStore.query. -/
inductive SecurityType
  | specific | generic | monthly_generic | spread
deriving DecidableEq

/-- The uniform result shape of the query facade, one alternative per branch
result shape. -/
inductive QueryOut
  | contracts (rows : List Row)
  | monthly (r : MGResult)
  | spreadOut (s : SpreadResult)
deriving DecidableEq

/-- DataStore.query as a state-passing function: the DataStore holds the
calendar table self.df, the method dispatches on security_type over a copy of
the table, and the store component is returned alongside the branch result (no
statement of the source assigns self.df). -/
def query (df : List Row) (security : List Char) (ty : SecurityType)
    (pit : Option PIT) : QueryOut × List Row :=
  match ty with
  | .specific => (QueryOut.contracts (query_specific df security pit), df)
  | .generic => (QueryOut.contracts (query_generic df security pit), df)
  | .monthly_generic => (QueryOut.monthly (query_monthly_generic df security pit), df)
  | .spread => (QueryOut.spreadOut (query_spread df security pit), df)

/-- Canonical monthly-generic code string TFM plus abbreviation plus sequence
number, as built by the f-string in query_spread for leg 1. -/
def mkMonthlyCode (m : Month) (n : Nat) : List Char :=
  tfm ++ abbrChars m ++ natDigits n

/-- Canonical spread code string TFM plus the two abbreviations plus sequence
number. -/
def mkSpreadCode (m1 m2 : Month) (n : Nat) : List Char :=
  tfm ++ abbrChars m1 ++ abbrChars m2 ++ natDigits n

/-- Re-serialization of a parsed monthly-generic code, for the round-trip
property. -/
def serializeMG (abbr : List Char) (n : Nat) : List Char :=
  tfm ++ abbr ++ natDigits n

/-! ### List lemmas: stable sort, slicing, takeWhile -/

theorem mem_insertLe {α : Type} (key : α → Nat) (a x : α) (l : List α) :
    x ∈ insertLe key a l ↔ x = a ∨ x ∈ l := by
  induction l with
  | nil => simp [insertLe]
  | cons b t ih =>
    simp only [insertLe]
    split
    · simp [List.mem_cons]
    · simp only [List.mem_cons, ih]
      tauto

theorem length_insertLe {α : Type} (key : α → Nat) (a : α) (l : List α) :
    (insertLe key a l).length = l.length + 1 := by
  induction l with
  | nil => rfl
  | cons b t ih =>
    simp only [insertLe]
    split
    · rfl
    · simp [ih]

theorem pairwise_insertLe {α : Type} (key : α → Nat) (a : α) (l : List α)
    (h : l.Pairwise (fun x y => key x ≤ key y)) :
    (insertLe key a l).Pairwise (fun x y => key x ≤ key y) := by
  induction l with
  | nil => simp [insertLe]
  | cons b t ih =>
    rcases List.pairwise_cons.mp h with ⟨hb, ht⟩
    simp only [insertLe]
    split
    · rename_i hab
      refine List.pairwise_cons.mpr ⟨?_, h⟩
      intro x hx
      rcases List.mem_cons.mp hx with rfl | hx
      · exact hab
      · exact le_trans hab (hb x hx)
    · rename_i hab
      refine List.pairwise_cons.mpr ⟨?_, ih ht⟩
      intro x hx
      rcases (mem_insertLe key a x t).mp hx with rfl | hx
      · omega
      · exact hb x hx

theorem pairwise_sortByKey {α : Type} (key : α → Nat) (l : List α) :
    (sortByKey key l).Pairwise (fun x y => key x ≤ key y) := by
  induction l with
  | nil => simp [sortByKey]
  | cons a t ih => exact pairwise_insertLe key a _ ih

theorem mem_sortByKey {α : Type} (key : α → Nat) (x : α) (l : List α) :
    x ∈ sortByKey key l ↔ x ∈ l := by
  induction l with
  | nil => simp [sortByKey]
  | cons a t ih =>
    simp only [sortByKey, mem_insertLe, ih, List.mem_cons]

theorem length_sortByKey {α : Type} (key : α → Nat) (l : List α) :
    (sortByKey key l).length = l.length := by
  induction l with
  | nil => rfl
  | cons a t ih => simp [sortByKey, length_insertLe, ih]

theorem mem_ilocSlice {α : Type} (k : Nat) (l : List α) (x : α)
    (h : x ∈ ilocSlice k l) : x ∈ l := by
  unfold ilocSlice at h
  split at h
  · simp at h
  · exact List.mem_of_mem_drop (List.mem_of_mem_take h)

theorem drop_cons_get {α : Type} (l : List α) (k : Nat) (r : α) (rest : List α)
    (h : l.drop k = r :: rest) : ∃ hk : k < l.length, l.get ⟨k, hk⟩ = r := by
  induction k generalizing l with
  | zero =>
    cases l with
    | nil => simp at h
    | cons a t =>
      simp only [List.drop_zero] at h
      cases h
      exact ⟨by simp, rfl⟩
  | succ k ih =>
    cases l with
    | nil => simp at h
    | cons a t =>
      simp only [List.drop_succ_cons] at h
      obtain ⟨hk, hg⟩ := ih t h
      exact ⟨by simpa using Nat.succ_lt_succ hk, by simpa using hg⟩

theorem take_one_drop {α : Type} (l : List α) (k : Nat) (hk : k < l.length) :
    (l.drop k).take 1 = [l.get ⟨k, hk⟩] := by
  cases hd : l.drop k with
  | nil =>
    have hlen := l.length_drop k
    rw [hd] at hlen
    simp at hlen
    omega
  | cons x xs =>
    obtain ⟨hk2, hg⟩ := drop_cons_get l k x xs hd
    simp [List.take, ← hg]

theorem ilocSlice_single {α : Type} (k : Nat) (l : List α) (r : α)
    (h : ilocSlice k l = [r]) :
    1 ≤ k ∧ ∃ hk : k - 1 < l.length, l.get ⟨k - 1, hk⟩ = r := by
  unfold ilocSlice at h
  split at h
  · simp at h
  · rename_i hk0
    refine ⟨by omega, ?_⟩
    cases hd : l.drop (k - 1) with
    | nil => rw [hd] at h; simp at h
    | cons x xs =>
      rw [hd] at h
      have hx : x = r := by simpa [List.take] using h
      subst hx
      exact drop_cons_get l (k - 1) x xs hd

theorem takeWhile_all_true (p : Char → Bool) (l : List Char)
    (h : ∀ c ∈ l, p c = true) : l.takeWhile p = l := by
  induction l with
  | nil => rfl
  | cons c t ih =>
    have hc := h c (by simp)
    simp [List.takeWhile, hc, ih fun x hx => h x (by simp [hx])]

theorem takeWhile_all_false (p : Char → Bool) (l : List Char)
    (h : ∀ c ∈ l, p c = false) : l.takeWhile p = [] := by
  cases l with
  | nil => rfl
  | cons c t => simp [List.takeWhile, h c (by simp)]

theorem dropWhile_all_false (p : Char → Bool) (l : List Char)
    (h : ∀ c ∈ l, p c = false) : l.dropWhile p = l := by
  cases l with
  | nil => rfl
  | cons c t => simp [List.dropWhile, h c (by simp)]

theorem takeWhile_append_true (p : Char → Bool) (l1 l2 : List Char)
    (h : ∀ c ∈ l1, p c = true) :
    (l1 ++ l2).takeWhile p = l1 ++ l2.takeWhile p := by
  induction l1 with
  | nil => rfl
  | cons c t ih =>
    have hc := h c (by simp)
    simp [List.takeWhile, hc, ih fun x hx => h x (by simp [hx])]

theorem dropWhile_append_true (p : Char → Bool) (l1 l2 : List Char)
    (h : ∀ c ∈ l1, p c = true) :
    (l1 ++ l2).dropWhile p = l2.dropWhile p := by
  induction l1 with
  | nil => rfl
  | cons c t ih =>
    have hc := h c (by simp)
    simp [List.dropWhile, hc, ih fun x hx => h x (by simp [hx])]

/-! ### Decimal rendering lemmas -/

theorem digitChar_isDigit (d : Nat) (h : d < 10) : (digitChar d).isDigit = true := by
  interval_cases d <;> decide

theorem digitChar_not_alpha (d : Nat) (h : d < 10) : (digitChar d).isAlpha = false := by
  interval_cases d <;> decide

theorem digitChar_not_upper (d : Nat) (h : d < 10) : (digitChar d).isUpper = false := by
  interval_cases d <;> decide

theorem digitChar_toNat (d : Nat) (h : d < 10) : (digitChar d).toNat = 48 + d := by
  interval_cases d <;> decide

theorem natDigitsF_ne_nil (fuel n : Nat) (h : n < fuel) : natDigitsF fuel n ≠ [] := by
  cases fuel with
  | zero => omega
  | succ f =>
    unfold natDigitsF
    split
    · simp
    · simp

theorem natDigitsF_mem (fuel : Nat) :
    ∀ n c, n < fuel → c ∈ natDigitsF fuel n →
      c.isDigit = true ∧ c.isAlpha = false ∧ c.isUpper = false := by
  induction fuel with
  | zero => omega
  | succ f ih =>
    intro n c hn hc
    unfold natDigitsF at hc
    split at hc
    · rename_i h10
      simp only [List.mem_singleton] at hc
      subst hc
      exact ⟨digitChar_isDigit n h10, digitChar_not_alpha n h10, digitChar_not_upper n h10⟩
    · rename_i h10
      rcases List.mem_append.mp hc with hc | hc
      · have hlt : n / 10 < f := by
          have := Nat.div_lt_self (show 0 < n by omega) (show 1 < 10 by omega)
          omega
        exact ih (n / 10) c hlt hc
      · simp only [List.mem_singleton] at hc
        subst hc
        have hm : n % 10 < 10 := Nat.mod_lt _ (by omega)
        exact ⟨digitChar_isDigit _ hm, digitChar_not_alpha _ hm, digitChar_not_upper _ hm⟩

theorem natDigits_mem (n : Nat) (c : Char) (hc : c ∈ natDigits n) :
    c.isDigit = true ∧ c.isAlpha = false ∧ c.isUpper = false :=
  natDigitsF_mem (n + 1) n c (Nat.lt_succ_self n) hc

theorem natDigits_ne_nil (n : Nat) : natDigits n ≠ [] :=
  natDigitsF_ne_nil (n + 1) n (Nat.lt_succ_self n)

theorem natDigits_isEmpty (n : Nat) : (natDigits n).isEmpty = false := by
  cases hl : natDigits n with
  | nil => exact absurd hl (natDigits_ne_nil n)
  | cons a t => rfl

theorem digitsToNat_append_one (l : List Char) (c : Char) :
    digitsToNat (l ++ [c]) = digitsToNat l * 10 + (c.toNat - 48) := by
  simp [digitsToNat, List.foldl_append]

theorem digitsToNat_natDigitsF (fuel : Nat) :
    ∀ n, n < fuel → digitsToNat (natDigitsF fuel n) = n := by
  induction fuel with
  | zero => omega
  | succ f ih =>
    intro n hn
    unfold natDigitsF
    split
    · rename_i h10
      simp only [digitsToNat, List.foldl_cons, List.foldl_nil]
      rw [digitChar_toNat n h10]
      omega
    · rename_i h10
      have hlt : n / 10 < f := by
        have := Nat.div_lt_self (show 0 < n by omega) (show 1 < 10 by omega)
        omega
      rw [digitsToNat_append_one, ih (n / 10) hlt,
        digitChar_toNat (n % 10) (Nat.mod_lt _ (by omega))]
      omega

theorem digitsToNat_natDigits (n : Nat) : digitsToNat (natDigits n) = n :=
  digitsToNat_natDigitsF (n + 1) n (Nat.lt_succ_self n)

/-! ### Month abbreviation lemmas -/

theorem abbr_alpha (m : Month) : ∀ c ∈ abbrChars m, c.isAlpha = true := by
  cases m <;> decide

theorem abbr_upper_map (m : Month) : (abbrChars m).map Char.toUpper = abbrChars m := by
  cases m <;> decide

theorem abbr_isEmpty (m : Month) : (abbrChars m).isEmpty = false := by
  cases m <;> decide

theorem abbrToMonth_abbrChars (m : Month) : abbrToMonth (abbrChars m) = some m := by
  cases m <;> decide

theorem abbrChars_spec (m : Month) : ∃ a b c : Char,
    abbrChars m = [a, b, c] ∧ (a.isUpper && b.isUpper && c.isUpper) = true := by
  cases m with
  | january => exact ⟨'J', 'A', 'N', by decide, by decide⟩
  | february => exact ⟨'F', 'E', 'B', by decide, by decide⟩
  | march => exact ⟨'M', 'A', 'R', by decide, by decide⟩
  | april => exact ⟨'A', 'P', 'R', by decide, by decide⟩
  | may => exact ⟨'M', 'A', 'Y', by decide, by decide⟩
  | june => exact ⟨'J', 'U', 'N', by decide, by decide⟩
  | july => exact ⟨'J', 'U', 'L', by decide, by decide⟩
  | august => exact ⟨'A', 'U', 'G', by decide, by decide⟩
  | september => exact ⟨'S', 'E', 'P', by decide, by decide⟩
  | october => exact ⟨'O', 'C', 'T', by decide, by decide⟩
  | november => exact ⟨'N', 'O', 'V', by decide, by decide⟩
  | december => exact ⟨'D', 'E', 'C', by decide, by decide⟩

/-! ### Parser round trips on canonically built code strings -/

theorem parseGen_mk (n : Nat) : parseGen (tfm ++ natDigits n) = some n := by
  show parseGen ('T' :: 'F' :: 'M' :: natDigits n) = some n
  simp only [parseGen]
  rw [takeWhile_all_true _ _ fun c hc => (natDigits_mem n c hc).1]
  simp [natDigits_isEmpty, digitsToNat_natDigits]

theorem parseMG_mk (m : Month) (n : Nat) :
    parseMG (mkMonthlyCode m n) = some (abbrChars m, n) := by
  show parseMG ('T' :: 'F' :: 'M' :: (abbrChars m ++ natDigits n)) = some (abbrChars m, n)
  simp only [parseMG]
  rw [takeWhile_append_true _ _ _ (abbr_alpha m),
    takeWhile_all_false _ _ fun c hc => (natDigits_mem n c hc).2.1,
    dropWhile_append_true _ _ _ (abbr_alpha m),
    dropWhile_all_false _ _ fun c hc => (natDigits_mem n c hc).2.1,
    takeWhile_all_true _ _ fun c hc => (natDigits_mem n c hc).1]
  simp [abbr_isEmpty, natDigits_isEmpty, abbr_upper_map, digitsToNat_natDigits]

theorem parseSpread_mk (m1 m2 : Month) (n : Nat) :
    parseSpread (mkSpreadCode m1 m2 n) = some (abbrChars m1, abbrChars m2, n) := by
  obtain ⟨a, b, c, habc, hup1⟩ := abbrChars_spec m1
  obtain ⟨d, e, f, hdef, hup2⟩ := abbrChars_spec m2
  unfold mkSpreadCode
  rw [habc, hdef]
  show parseSpread ('T' :: 'F' :: 'M' :: a :: b :: c :: d :: e :: f :: natDigits n) = _
  simp only [parseSpread]
  simp only [Bool.and_eq_true] at hup1 hup2
  rw [takeWhile_all_true _ _ fun x hx => (natDigits_mem n x hx).1]
  simp [hup1.1.1, hup1.1.2, hup1.2, hup2.1.1, hup2.1.2, hup2.2,
    natDigits_isEmpty, digitsToNat_natDigits, ← habc, ← hdef]

/-! ### Marker-removal lemmas -/

theorem isPrefixChars_self_append (pat s : List Char) :
    isPrefixChars pat (pat ++ s) = true := by
  induction pat with
  | nil => rfl
  | cons a as ih => simp [isPrefixChars, ih]

theorem removeFirst_self_append (pat s : List Char) (hp : pat ≠ []) :
    removeFirst pat (pat ++ s) = s := by
  cases pat with
  | nil => contradiction
  | cons a as =>
    show removeFirst (a :: as) (a :: (as ++ s)) = s
    unfold removeFirst
    rw [show a :: (as ++ s) = (a :: as) ++ s from rfl, isPrefixChars_self_append]
    simp [List.drop_left]

theorem removeFirst_no_occur (pat s : List Char) (h : containsSub pat s = false) :
    removeFirst pat s = s := by
  induction s with
  | nil => rfl
  | cons c rest ih =>
    unfold containsSub at h
    rw [Bool.or_eq_false_iff] at h
    unfold removeFirst
    rw [h.1]
    simp [ih h.2]

/-! ### Unfolding lemma for monthly-generic queries on canonical codes -/

theorem query_monthly_eq (df : List Row) (m : Month) (n : Nat) (pit : Option PIT)
    (t : Date) (ht : refDate pit = some t) :
    query_monthly_generic df (mkMonthlyCode m n) pit =
      if n ≤ (validSorted df pit m t).length then
        ⟨ilocSlice n (validSorted df pit m t),
         some (MGMeta.pit (expiredNotice df pit m t)
           (nextAvail (ilocSlice n (validSorted df pit m t))) m)⟩
      else MGResult.empty := by
  simp only [query_monthly_generic, parseMG_mk, abbrToMonth_abbrChars, ht]

theorem pairwise_validSorted (df : List Row) (pit : Option PIT) (m : Month) (t : Date) :
    (validSorted df pit m t).Pairwise (fun a b => a.contract_year ≤ b.contract_year) := by
  unfold validSorted
  exact pairwise_sortByKey _ _

/-! ### Sample calendar tables for witnesses and counterexamples -/

/-- April 2025 contract of the specification scenario, expiring 2025-04-15. -/
def sampleApr25 : Row := ⟨("TFM\\J25").toList, some .april, 202504, ⟨2025, 4, 15⟩, 2025⟩

/-- April 2026 contract of the specification scenario, expiring 2026-04-15. -/
def sampleApr26 : Row := ⟨("TFM\\J26").toList, some .april, 202604, ⟨2026, 4, 15⟩, 2026⟩

/-- Two-row calendar of the April scenario. -/
def sampleDf : List Row := [sampleApr25, sampleApr26]

/-- December 2025 contract of the spread scenario, expiring 2025-12-19. -/
def sampleDec25 : Row := ⟨("TFM\\Z25").toList, some .december, 202512, ⟨2025, 12, 19⟩, 2025⟩

/-- June 2026 contract of the spread scenario, expiring 2026-06-17. -/
def sampleJun26 : Row := ⟨("TFM\\M26").toList, some .june, 202606, ⟨2026, 6, 17⟩, 2026⟩

/-- Calendar of the spread scenario. -/
def sprDf : List Row := [sampleDec25, sampleJun26]

/-- June 2026 row whose recorded expiry date (2025-01-01) lies in the past of
the reference dates used below, exercising the unfiltered second-leg lookup. -/
def sampleJunEarly : Row := ⟨("TFM\\M26").toList, some .june, 202606, ⟨2025, 1, 1⟩, 2026⟩

/-- Calendar pairing the December 2025 row with the early-expiring June row. -/
def lateDf : List Row := [sampleDec25, sampleJunEarly]

/-! ### Claim theorems -/

/-- C2: for every month abbreviation, sequence number and point in time t,
every contract returned by a monthly-generic query with point in time t has
expiry_date strictly greater than t; a contract with expiry_date at or before
t is never returned. -/
theorem monthly_generic_never_returns_expired (df : List Row) (m : Month) (n : Nat)
    (t : Date) (r : Row)
    (h : r ∈ (query_monthly_generic df (mkMonthlyCode m n) (some (.single t))).rows) :
    t.toNat < r.expiry_date.toNat := by
  rw [query_monthly_eq df m n (some (.single t)) t rfl] at h
  split at h
  · have h2 := mem_ilocSlice _ _ _ h
    unfold validSorted at h2
    rw [mem_sortByKey] at h2
    have h3 := List.mem_filter.mp h2
    simpa using h3.2
  · simp [MGResult.empty] at h

/-- Witness for C2: on the April scenario table, the query for the first April
contract as of 2025-05-01 returns the April 2026 row, whose expiry is strictly
after the reference date. -/
theorem monthly_generic_never_returns_expired_w :
    sampleApr26 ∈ (query_monthly_generic sampleDf (mkMonthlyCode .april 1)
      (some (.single ⟨2025, 5, 1⟩))).rows ∧
    (⟨2025, 5, 1⟩ : Date).toNat < sampleApr26.expiry_date.toNat :=
  ⟨by decide,
   monthly_generic_never_returns_expired sampleDf .april 1 ⟨2025, 5, 1⟩ sampleApr26
     (by decide)⟩

/-- C7: for a fixed month and point in time, if the monthly-generic queries at
sequence numbers n1 and n2 with n1 at most n2 both return a contract, the
contract_year of the first result is at most that of the second. -/
theorem monthly_generic_year_monotone (df : List Row) (m : Month) (t : Date)
    (n1 n2 : Nat) (r1 r2 : Row) (hle : n1 ≤ n2)
    (h1 : (query_monthly_generic df (mkMonthlyCode m n1) (some (.single t))).rows = [r1])
    (h2 : (query_monthly_generic df (mkMonthlyCode m n2) (some (.single t))).rows = [r2]) :
    r1.contract_year ≤ r2.contract_year := by
  rw [query_monthly_eq df m n1 (some (.single t)) t rfl] at h1
  rw [query_monthly_eq df m n2 (some (.single t)) t rfl] at h2
  split at h1
  · split at h2
    · obtain ⟨hn1, hk1, hg1⟩ := ilocSlice_single _ _ _ h1
      obtain ⟨hn2, hk2, hg2⟩ := ilocSlice_single _ _ _ h2
      by_cases heq : n1 = n2
      · subst heq
        have : r1 = r2 := by rw [← hg1, ← hg2]
        exact le_of_eq (by rw [this])
      · have hlt : n1 - 1 < n2 - 1 := by omega
        have hp := pairwise_validSorted df (some (.single t)) m t
        rw [List.pairwise_iff_get] at hp
        have hrel := hp ⟨n1 - 1, hk1⟩ ⟨n2 - 1, hk2⟩ hlt
        rw [hg1, hg2] at hrel
        exact hrel
    · simp [MGResult.empty] at h2
  · simp [MGResult.empty] at h1

/-- Witness for C7: on the April scenario table as of 2025-01-12, sequence 1
returns the 2025 contract and sequence 2 the 2026 contract, with years in
order. -/
theorem monthly_generic_year_monotone_w :
    (query_monthly_generic sampleDf (mkMonthlyCode .april 1)
      (some (.single ⟨2025, 1, 12⟩))).rows = [sampleApr25] ∧
    (query_monthly_generic sampleDf (mkMonthlyCode .april 2)
      (some (.single ⟨2025, 1, 12⟩))).rows = [sampleApr26] ∧
    sampleApr25.contract_year ≤ sampleApr26.contract_year :=
  ⟨by decide, by decide,
   monthly_generic_year_monotone sampleDf .april ⟨2025, 1, 12⟩ 1 2 sampleApr25 sampleApr26
     (by decide) (by decide) (by decide)⟩

/-- C4: a generic query without point in time at a positive sequence n returns
exactly the row at position n-1 of the table sorted ascending by
contract_month, is empty when n exceeds the row count, and the inputs TFM0 and
TFM-1 (sequence zero or negative, which the spec calls malformed) return no
row: TFM0 parses but the slice iloc with negative start is empty, and TFM-1
fails the parse. -/
theorem generic_sort_index (df : List Row) (n : Nat) (h1 : 1 ≤ n) :
    (∀ hk : n - 1 < (sortByKey (fun r => r.contract_month) df).length,
       query_generic df (tfm ++ natDigits n) none
         = [(sortByKey (fun r => r.contract_month) df).get ⟨n - 1, hk⟩]) ∧
    (df.length < n → query_generic df (tfm ++ natDigits n) none = []) ∧
    query_generic df ("TFM0").toList none = [] ∧
    query_generic df ("TFM-1").toList none = [] := by
  refine ⟨?_, ?_, ?_, ?_⟩
  · intro hk
    simp only [query_generic, parseGen_mk, pitFilter]
    unfold ilocSlice
    rw [if_neg (by omega)]
    exact take_one_drop _ _ hk
  · intro hlen
    simp only [query_generic, parseGen_mk, pitFilter]
    unfold ilocSlice
    rw [if_neg (by omega)]
    rw [List.drop_eq_nil_of_le (by rw [length_sortByKey]; omega)]
    rfl
  · have hp : parseGen ("TFM0").toList = some 0 := by decide
    simp only [query_generic, hp]
    simp [ilocSlice]
  · have hp : parseGen ("TFM-1").toList = none := by decide
    simp only [query_generic, hp]

/-- Witness for C4: on the April scenario table, the generic query TFM2 without
point in time returns the second row in contract_month order. -/
theorem generic_sort_index_w :
    1 ≤ 2 ∧ query_generic sampleDf (tfm ++ natDigits 2) none = [sampleApr26] := by
  refine ⟨by decide, ?_⟩
  have h := (generic_sort_index sampleDf 2 (by decide)).1 (by decide)
  rw [h]
  decide

/-- C6: for a code c occurring in exactly one row of the table and not
containing the source-system marker, the specific query returns exactly that
row, and returns the same whether or not the input carries the ENDEX::F:
marker. -/
theorem specific_code_exact_and_marker_invariant (df : List Row) (c : List Char) (r : Row)
    (hu : df.filter (fun x => decide (x.code = c)) = [r])
    (hno : containsSub endexMarker c = false) :
    query_specific df c none = [r] ∧
    query_specific df (endexMarker ++ c) none = [r] := by
  constructor
  · simp only [query_specific, pitFilter]
    rw [removeFirst_no_occur _ _ hno]
    exact hu
  · simp only [query_specific, pitFilter]
    rw [removeFirst_self_append _ _ (by decide)]
    exact hu

/-- Witness for C6: looking up the April 2025 code, with and without the
marker, returns that single row. -/
theorem specific_code_exact_and_marker_invariant_w :
    query_specific sampleDf (("TFM\\J25").toList) none = [sampleApr25] ∧
    query_specific sampleDf (endexMarker ++ ("TFM\\J25").toList) none = [sampleApr25] :=
  specific_code_exact_and_marker_invariant sampleDf (("TFM\\J25").toList) sampleApr25
    (by decide) (by decide)

/-- C10: every query operation, on any input, security type and point in time,
leaves the calendar table unchanged: the store component returned by the
state-passing facade equals the input table. -/
theorem query_leaves_table_unchanged (df : List Row) (security : List Char)
    (ty : SecurityType) (pit : Option PIT) :
    (query df security ty pit).2 = df := by
  cases ty <;> rfl

/-- C1: for every spread query whose first leg resolves (to a contract with
year year1), the second-leg year is year1 + 1 when the second month's calendar
index is at most the first month's, and year1 otherwise; the second leg is the
first table row with the second month's name and that year, carried in both
the result row and the metadata, and the query returns the empty result when
no such row exists. -/
theorem spread_leg2_year_rollover (df : List Row) (m1 m2 : Month) (n : Nat)
    (pit : Option PIT) (r1 : Row) (rest : List Row)
    (h1 : (query_monthly_generic df (mkMonthlyCode m1 n) pit).rows = r1 :: rest) :
    (((df.filter (fun r => decide (r.month_name = some m2))).filter
        (fun r => decide (r.contract_year =
          (if monthIdx m2 ≤ monthIdx m1 then r1.contract_year + 1
           else r1.contract_year))) = []) →
      query_spread df (mkSpreadCode m1 m2 n) pit = SpreadResult.empty) ∧
    (∀ r2 rest2,
      (df.filter (fun r => decide (r.month_name = some m2))).filter
        (fun r => decide (r.contract_year =
          (if monthIdx m2 ≤ monthIdx m1 then r1.contract_year + 1
           else r1.contract_year))) = r2 :: rest2 →
      query_spread df (mkSpreadCode m1 m2 n) pit =
        ⟨[⟨mkSpreadCode m1 m2 n, r1.code, r1.expiry_date, r2.code, r2.expiry_date,
           abbrChars m1 ++ '-' :: abbrChars m2⟩],
         some ⟨abbrChars m1 ++ '-' :: abbrChars m2, r1.code, monthName m1,
               r1.contract_year, r2.code, monthName m2,
               if monthIdx m2 ≤ monthIdx m1 then r1.contract_year + 1
               else r1.contract_year⟩⟩) := by
  have hq := parseSpread_mk m1 m2 n
  constructor
  · intro hc
    simp only [query_spread, hq, abbrToMonth_abbrChars]
    rw [show tfm ++ abbrChars m1 ++ natDigits n = mkMonthlyCode m1 n from rfl]
    simp only [h1, hc]
  · intro r2 rest2 hc
    simp only [query_spread, hq, abbrToMonth_abbrChars]
    rw [show tfm ++ abbrChars m1 ++ natDigits n = mkMonthlyCode m1 n from rfl]
    simp only [h1, hc]

/-- Witness for C1: on the spread scenario table as of 2025-01-01, the DEC
leg resolves to December 2025 and the JUN leg to June 2026 (June's index 5 is
at most December's 11, so the year rolls to 2026). -/
theorem spread_leg2_year_rollover_w :
    (query_monthly_generic sprDf (mkMonthlyCode .december 1)
        (some (.single ⟨2025, 1, 1⟩))).rows = [sampleDec25] ∧
    query_spread sprDf (mkSpreadCode .december .june 1) (some (.single ⟨2025, 1, 1⟩)) =
      ⟨[⟨mkSpreadCode .december .june 1, sampleDec25.code, sampleDec25.expiry_date,
         sampleJun26.code, sampleJun26.expiry_date,
         abbrChars .december ++ '-' :: abbrChars .june⟩],
       some ⟨abbrChars .december ++ '-' :: abbrChars .june, sampleDec25.code,
             monthName .december, sampleDec25.contract_year, sampleJun26.code,
             monthName .june,
             if monthIdx .june ≤ monthIdx .december then sampleDec25.contract_year + 1
             else sampleDec25.contract_year⟩⟩ :=
  ⟨by decide,
   (spread_leg2_year_rollover sprDf .december .june 1 (some (.single ⟨2025, 1, 1⟩))
       sampleDec25 [] (by decide)).2 sampleJun26 [] (by decide)⟩

/-- C9: with a point in time, the second spread leg is selected purely by
matching month_name and the computed contract_year over the entire calendar
table, with no expiry filter: whenever the first-leg query resolves and the
unfiltered table has rows matching the second month and computed year, the
first such row in table order becomes the second leg (its expiry may lie at or
before the point in time, as the accompanying witness shows). -/
theorem spread_leg2_unfiltered_first (df : List Row) (m1 m2 : Month) (n : Nat)
    (t : Date) (r1 : Row) (rest : List Row) (r2 : Row) (rest2 : List Row)
    (h1 : (query_monthly_generic df (mkMonthlyCode m1 n)
        (some (.single t))).rows = r1 :: rest)
    (h2 : (df.filter (fun r => decide (r.month_name = some m2))).filter
        (fun r => decide (r.contract_year =
          (if monthIdx m2 ≤ monthIdx m1 then r1.contract_year + 1
           else r1.contract_year))) = r2 :: rest2) :
    (query_spread df (mkSpreadCode m1 m2 n) (some (.single t))).rows
      = [⟨mkSpreadCode m1 m2 n, r1.code, r1.expiry_date, r2.code, r2.expiry_date,
          abbrChars m1 ++ '-' :: abbrChars m2⟩] := by
  have hq := parseSpread_mk m1 m2 n
  simp only [query_spread, hq, abbrToMonth_abbrChars]
  rw [show tfm ++ abbrChars m1 ++ natDigits n = mkMonthlyCode m1 n from rfl]
  simp only [h1, h2]

/-- Witness for C9: pairing December 2025 with a June row whose recorded
expiry 2025-01-01 already lies before the reference date 2025-06-01, the
unfiltered lookup still returns that June row as the second leg, with its
expiry at or before the point in time. -/
theorem spread_leg2_unfiltered_first_w :
    (query_monthly_generic lateDf (mkMonthlyCode .december 1)
        (some (.single ⟨2025, 6, 1⟩))).rows = [sampleDec25] ∧
    (lateDf.filter (fun r => decide (r.month_name = some Month.june))).filter
        (fun r => decide (r.contract_year =
          (if monthIdx .june ≤ monthIdx .december then sampleDec25.contract_year + 1
           else sampleDec25.contract_year))) = [sampleJunEarly] ∧
    (query_spread lateDf (mkSpreadCode .december .june 1)
        (some (.single ⟨2025, 6, 1⟩))).rows
      = [⟨mkSpreadCode .december .june 1, sampleDec25.code, sampleDec25.expiry_date,
          sampleJunEarly.code, sampleJunEarly.expiry_date,
          abbrChars .december ++ '-' :: abbrChars .june⟩] ∧
    sampleJunEarly.expiry_date.toNat ≤ (⟨2025, 6, 1⟩ : Date).toNat :=
  ⟨by decide, by decide,
   spread_leg2_unfiltered_first lateDf .december .june 1 ⟨2025, 6, 1⟩ sampleDec25 []
     sampleJunEarly [] (by decide) (by decide),
   by decide⟩

theorem expiredNotice_nil (df : List Row) (pit : Option PIT) (m : Month) (t : Date)
    (ht : refDate pit = some t) : expiredNotice df pit m t = [] := by
  unfold expiredNotice
  cases hf : (monthRows df pit m).filter (fun r => decide (r.contract_year = t.year)) with
  | nil => rfl
  | cons r tl =>
    have hrmem : r ∈ (monthRows df pit m).filter
        (fun r => decide (r.contract_year = t.year)) := by
      rw [hf]
      exact List.mem_cons_self r tl
    have hr2 : r ∈ monthRows df pit m := (List.mem_filter.mp hrmem).1
    unfold monthRows at hr2
    have hr3 : r ∈ pitFilter df pit := (List.mem_filter.mp hr2).1
    show (if r.expiry_date.toNat < t.toNat then [(t.year, r.expiry_date)] else []) = []
    cases pit with
    | none => simp [refDate] at ht
    | some p =>
      cases p with
      | single t1 =>
        have htt : t1 = t := by simpa [refDate] using ht
        subst htt
        unfold pitFilter at hr3
        have hle := (List.mem_filter.mp hr3).2
        rw [decide_eq_true_eq] at hle
        rw [if_neg (by omega)]
      | range s1 e1 =>
        have htt : s1 = t := by simpa [refDate] using ht
        subst htt
        unfold pitFilter at hr3
        have hle := (List.mem_filter.mp hr3).2
        rw [Bool.and_eq_true] at hle
        have hle1 := hle.1
        rw [decide_eq_true_eq] at hle1
        rw [if_neg (by omega)]

/-- C3 (code bug): the expired-contract notice of a monthly-generic query is
always empty. The reference-date filter at the top of DataStore.query already
removed every row with expiry_date before the reference date, so the
same-year contract the notice is supposed to report (lines 170-181) is never
present in monthly_df when it has expired, making the notice dead code; the
specification scenario expects the April 2025 contract to be flagged after it
expires, and the code never flags it. -/
theorem expired_notice_always_empty (df : List Row) (security : List Char)
    (pit : Option PIT) (e : List (Nat × Date)) (na : Option (Nat × Date)) (m : Month)
    (h : (query_monthly_generic df security pit).meta = some (MGMeta.pit e na m)) :
    e = [] := by
  cases hp : parseMG security with
  | none => simp [query_monthly_generic, hp, MGResult.empty] at h
  | some v =>
    obtain ⟨abbr, seq⟩ := v
    cases ha : abbrToMonth abbr with
    | none => simp [query_monthly_generic, hp, ha, MGResult.empty] at h
    | some m1 =>
      cases hr : refDate pit with
      | none =>
        simp only [query_monthly_generic, hp, ha, hr] at h
        split at h
        · simp at h
        · simp [MGResult.empty] at h
      | some t =>
        simp only [query_monthly_generic, hp, ha, hr] at h
        split at h
        · simp at h
          rw [← h.1]
          exact expiredNotice_nil df pit m1 t hr
        · simp [MGResult.empty] at h

/-- Witness for C3: in the specification scenario (April 2025 expired
2025-04-15, query as of 2025-05-01), the result resolves to April 2026 but the
expired-contracts metadata is empty, where the specification expects the
April 2025 contract to be flagged. -/
theorem expired_notice_always_empty_w :
    (query_monthly_generic sampleDf (("TFMAPR1").toList)
        (some (.single ⟨2025, 5, 1⟩))).meta
      = some (MGMeta.pit [] (some (2026, ⟨2026, 4, 15⟩)) .april) ∧
    ([] : List (Nat × Date)) = [] :=
  ⟨by decide,
   expired_notice_always_empty sampleDf (("TFMAPR1").toList)
     (some (.single ⟨2025, 5, 1⟩)) [] (some (2026, ⟨2026, 4, 15⟩)) .april (by decide)⟩

/-- Counterexample for C5: the malformed monthly reference TFMXYZ1 (XYZ is not
a recognized month abbreviation) and the well-formed reference TFMAPR5 with no
qualifying rows (the table holds only two April contracts) return the very
same empty result: the malformed reference is coerced to the same no-data
outcome, contradicting the claim's distinguishability. -/
theorem malformed_vs_nodata_cex :
    query_monthly_generic sampleDf (("TFMXYZ1").toList) (some (.single ⟨2025, 1, 1⟩))
      = query_monthly_generic sampleDf (("TFMAPR5").toList)
          (some (.single ⟨2025, 1, 1⟩)) ∧
    query_monthly_generic sampleDf (("TFMXYZ1").toList) (some (.single ⟨2025, 1, 1⟩))
      = MGResult.empty ∧
    parseMG (("TFMXYZ1").toList) = some (("XYZ").toList, 1) ∧
    abbrToMonth (("XYZ").toList) = none ∧
    parseMG (("TFMAPR5").toList) = some (("APR").toList, 5) ∧
    abbrToMonth (("APR").toList) = some Month.april := by decide

/-- C5 as amended: a malformed monthly-generic reference and a well-formed
reference with no qualifying rows both return the identical empty result
(empty rows, no metadata); the returned value does not distinguish the two
situations (only console diagnostics differ). -/
theorem malformed_and_nodata_same_empty (df : List Row) (t : Date) (m : Month) (n : Nat) :
    query_monthly_generic df (("TFMXYZ1").toList) (some (.single t)) = MGResult.empty ∧
    ((validSorted df (some (.single t)) m t).length < n →
      query_monthly_generic df (mkMonthlyCode m n) (some (.single t)) = MGResult.empty) := by
  constructor
  · have hp : parseMG (("TFMXYZ1").toList) = some (("XYZ").toList, 1) := by decide
    have ha : abbrToMonth (("XYZ").toList) = none := by decide
    simp only [query_monthly_generic, hp, ha]
  · intro hlen
    rw [query_monthly_eq df m n (some (.single t)) t rfl]
    rw [if_neg (by omega)]

/-- Witness for C5 as amended: on the April scenario table, both the malformed
TFMXYZ1 and the exhausted TFMAPR5 yield the empty result. -/
theorem malformed_and_nodata_same_empty_w :
    (validSorted sampleDf (some (.single ⟨2025, 1, 1⟩)) .april ⟨2025, 1, 1⟩).length < 5 ∧
    query_monthly_generic sampleDf (("TFMXYZ1").toList) (some (.single ⟨2025, 1, 1⟩))
      = MGResult.empty ∧
    query_monthly_generic sampleDf (mkMonthlyCode .april 5) (some (.single ⟨2025, 1, 1⟩))
      = MGResult.empty :=
  ⟨by decide,
   (malformed_and_nodata_same_empty sampleDf ⟨2025, 1, 1⟩ .april 5).1,
   (malformed_and_nodata_same_empty sampleDf ⟨2025, 1, 1⟩ .april 5).2 (by decide)⟩

/-- Counterexample for C8: the parser accepts TFMAPR1X (re.match does not
anchor the end of the input), yielding the pair (APR, 1) whose
re-serialization TFMAPR1 differs from the input even after upper-casing both
sides, so the round trip does not reproduce every accepted input. -/
theorem monthly_roundtrip_cex :
    parseMG (("TFMAPR1X").toList) = some (("APR").toList, 1) ∧
    abbrToMonth (("APR").toList) = some Month.april ∧
    serializeMG (("APR").toList) 1 ≠ ("TFMAPR1X").toList ∧
    List.map Char.toUpper (serializeMG (("APR").toList) 1)
      ≠ List.map Char.toUpper (("TFMAPR1X").toList) := by decide

/-- C8 as amended: for input strings exactly of the canonical form TFM
followed by a recognized upper-case abbreviation and the canonical decimal
numeral of the sequence, parsing and re-serializing reproduces the input; the
parser additionally accepts strings with trailing characters (or with
non-canonical numerals), for which re-serialization yields the canonical form
rather than the original input. -/
theorem monthly_roundtrip_canonical (m : Month) (n : Nat) (s : List Char)
    (hs : s = serializeMG (abbrChars m) n) :
    ∃ a k, parseMG s = some (a, k) ∧ serializeMG a k = s := by
  subst hs
  exact ⟨abbrChars m, n, parseMG_mk m n, rfl⟩

/-- Witness for C8 as amended: the canonical input TFMAPR1 parses to (APR, 1)
and re-serializes to itself. -/
theorem monthly_roundtrip_canonical_w :
    ("TFMAPR1").toList = serializeMG (abbrChars .april) 1 ∧
    ∃ a k, parseMG (("TFMAPR1").toList) = some (a, k) ∧
      serializeMG a k = ("TFMAPR1").toList :=
  ⟨by decide, monthly_roundtrip_canonical .april 1 (("TFMAPR1").toList) (by decide)⟩

end TTF
